import Mathlib

/-!
Shallow embedding of `src/chromeos-config/cros_config_host_py/libcros_config_host.py`.

The Python library resolves a device-tree-style configuration into per-model
records.  The embedding mirrors the code class by class:

* `CProperty` embeds `CrosConfig.Property` (name, value, and the integer the
  underlying fdt property would yield from `GetPhandle()`).
* `Node` embeds `CrosConfig.Node`: a name, the fdt node path (used only for
  error messages), ordered subnodes and ordered properties.  Python's
  `OrderedDict` keyed by name is embedded as a list in insertion order with
  first-match lookup (names are unique per node, as dict keys).
* `PhandleIndex` embeds `CrosConfig.phandle_to_node`.
* Methods of `Node`/`Model` become functions taking the phandle index (the
  only part of the `cros_config` back pointer the methods read).
* Python exceptions are embedded as an `Except PyError` result; the
  distinguishable exception situations each get a `PyError` constructor.
-/

structure CProperty where
  name : String
  value : String
  phandle : Nat
deriving DecidableEq

inductive Node where
  | mk (name : String) (path : String) (subnodes : List Node) (properties : List CProperty)

def Node.name : Node → String
  | .mk n _ _ _ => n

def Node.path : Node → String
  | .mk _ p _ _ => p

def Node.subnodes : Node → List Node
  | .mk _ _ s _ => s

def Node.properties : Node → List CProperty
  | .mk _ _ _ ps => ps

/-- The global phandle-to-node index (`CrosConfig.phandle_to_node`). -/
abbrev PhandleIndex := List (Nat × Node)

structure CrosConfig where
  phandle_to_node : PhandleIndex
  models : List Node

/-- Embeds Python's `TouchFile` namedtuple. -/
structure TouchFile where
  firmware : String
  symlink : String
deriving DecidableEq

/-- The Python exceptions the embedded code can raise. -/
inductive PyError where
  /-- `KeyError` escaping uncaught (dict subscript of a missing key). -/
  | keyError (key : String)
  /-- The `ValueError` raised by `GetTouchFilename`, carrying the node path,
  the (already `$`-stripped) template, the available property names, and the
  missing key, exactly the four values interpolated into its message. -/
  | valueError (node_path : String) (template : String) (keys : List String) (missing : String)
  /-- `UnboundLocalError`: `sub_node` referenced before assignment in
  `ChildNodeFromPath`. -/
  | unboundLocalError
  /-- `AttributeError`: attribute access on `None`. -/
  | attributeError
  /-- A `ValueError` raised by `str.format` itself on a malformed template
  (an unmatched brace); not caught by `GetTouchFilename`. -/
  | formatValueError
deriving DecidableEq

instance {ε α : Type} [DecidableEq ε] [DecidableEq α] : DecidableEq (Except ε α) := fun a b =>
  match a, b with
  | .error e₁, .error e₂ =>
    if h : e₁ = e₂ then isTrue (by rw [h]) else isFalse (by intro hh; cases hh; exact h rfl)
  | .ok v₁, .ok v₂ =>
    if h : v₁ = v₂ then isTrue (by rw [h]) else isFalse (by intro hh; cases hh; exact h rfl)
  | .error _, .ok _ => isFalse (by intro h; cases h)
  | .ok _, .error _ => isFalse (by intro h; cases h)

/-- `s.endswith(suffix)`, on the character lists. -/
def strEndsWith (s suffix : String) : Bool :=
  suffix.data.isSuffixOf s.data

/-- `s.startswith(pre)`, on the character lists. -/
def strStartsWith (s pre : String) : Bool :=
  pre.data.isPrefixOf s.data

/-- The slice `s[n:]`, on the character lists. -/
def strDrop (s : String) (n : Nat) : String :=
  String.mk (s.data.drop n)

/-- `s.upper()`, on the character lists. -/
def strUpper (s : String) : String :=
  String.mk (s.data.map Char.toUpper)

/-- Dict lookup (`d.get(k)` / `k in d`) over an insertion-ordered mapping. -/
def lookupStr (props : List (String × String)) (k : String) : Option String :=
  (props.find? (fun q => q.1 == k)).map (fun q => q.2)

/-- Dict lookup in the phandle index. -/
def lookupPhandle (idx : PhandleIndex) (h : Nat) : Option Node :=
  (idx.find? (fun q => q.1 == h)).map (fun q => q.2)

/-- Dict assignment `d[k] = v`: replace in place, else append. -/
def dictSet (props : List (String × String)) (k v : String) : List (String × String) :=
  if props.any (fun q => q.1 == k) then
    props.map (fun q => if q.1 == k then (k, v) else q)
  else props ++ [(k, v)]

/-- `self.properties.get(name)` (names are unique per node). -/
def Node.findProp (n : Node) (s : String) : Option CProperty :=
  n.properties.find? (fun p => p.name == s)

/-- `self.subnodes.get(name)` / `name in self.subnodes`. -/
def Node.findSub (n : Node) (s : String) : Option Node :=
  n.subnodes.find? (fun c => c.name == s)

/-- Embeds `CrosConfig.Node.FollowPhandle`: `None` when the property is
missing, otherwise a lookup of the property's phandle in the global index;
a phandle absent from the index raises `KeyError`. -/
def Node.FollowPhandle (idx : PhandleIndex) (n : Node) (prop_name : String) :
    Except PyError (Option Node) :=
  match n.findProp prop_name with
  | none => .ok none
  | some p =>
    match lookupPhandle idx p.phandle with
    | none => .error (.keyError prop_name)
    | some target => .ok (some target)

/-- Python's `relative_path.split('/')` on the character list. -/
def splitSlash : List Char → List (List Char)
  | [] => [[]]
  | c :: rest =>
    if c = '/' then [] :: splitSlash rest
    else
      match splitSlash rest with
      | [] => [[c]]
      | s :: ss => (c :: s) :: ss

/-- `[path for path in relative_path.split('/') if path]`. -/
def pathParts (s : String) : List String :=
  ((splitSlash s.data).filter (fun l => !l.isEmpty)).map (fun l => String.mk l)

/-- The recursion of `ChildNodeFromPath` over the non-empty path segments.
The Python joins `path_parts[1:]` with `'/'` and re-splits in the recursive
call; since the segments are non-empty and slash-free this round-trips, and
the recursion is embedded directly on the segment list.  When the first
segment is found in neither the node nor (with a `'shares'` property
present) the linked node, the Python reaches `return sub_node.…` with
`sub_node` unassigned and raises `UnboundLocalError`. -/
def Node.resolveSegs (idx : PhandleIndex) : Node → List String → Except PyError (Option Node)
  | n, [] => .ok (some n)
  | n, part :: rest =>
    match n.findSub part with
    | some sub => sub.resolveSegs idx rest
    | none =>
      if (n.findProp "shares").isSome then
        match n.FollowPhandle idx "shares" with
        | .error e => .error e
        | .ok none => .error .attributeError
        | .ok (some shared) =>
          match shared.findSub part with
          | some sub => sub.resolveSegs idx rest
          | none => .error .unboundLocalError
      else .ok none

/-- Embeds `CrosConfig.Node.ChildNodeFromPath`. -/
def Node.ChildNodeFromPath (idx : PhandleIndex) (n : Node) (relative_path : String) :
    Except PyError (Option Node) :=
  n.resolveSegs idx (pathParts relative_path)

/-- Embeds `CrosConfig.Node.ChildPropertyFromPath`. -/
def Node.ChildPropertyFromPath (idx : PhandleIndex) (n : Node)
    (relative_path property_name : String) : Except PyError (Option CProperty) :=
  match n.ChildNodeFromPath idx relative_path with
  | .error e => .error e
  | .ok none => .ok none
  | .ok (some child) =>
    match child.findProp property_name with
    | some p => .ok (some p)
    | none =>
      if (child.findProp "shares").isSome then
        match child.FollowPhandle idx "shares" with
        | .error e => .error e
        | .ok none => .error .attributeError
        | .ok (some shared) => .ok (shared.findProp property_name)
      else .ok none

/-- Embeds `CrosConfig.Node.GetMergedProperties`: the node's own properties
minus `phandle_prop` and `'reg'`, then every property of the linked node
whose name is not already present and does not end in `'phandle'`, in
iteration order. -/
def Node.GetMergedProperties (idx : PhandleIndex) (n : Node) (phandle_prop : String) :
    Except PyError (List (String × String)) :=
  let props := (n.properties.filter
      (fun p => !(p.name == phandle_prop || p.name == "reg"))).map
      (fun p => (p.name, p.value))
  match n.FollowPhandle idx phandle_prop with
  | .error e => .error e
  | .ok none => .ok props
  | .ok (some pn) =>
    .ok (pn.properties.foldl
      (fun acc p =>
        if (lookupStr acc p.name).isSome || strEndsWith p.name "phandle" then acc
        else acc ++ [(p.name, p.value)])
      props)

/-- `template.replace('$', '')`. -/
def stripDollar (s : String) : String :=
  String.mk (s.data.filter (fun c => c ≠ '$'))

/-- A parsed token of a `str.format` template: literal text or a `{key}`
replacement field. -/
inductive Tok where
  | lit (c : Char)
  | field (key : String)

/-- Tokenizer for `str.format` templates, restricted to the fragment the
configuration templates use: literal characters and simple named fields
`\x7bkey\x7d` (no `\x7b\x7b` escapes, no format specs, no positional
fields).  The `Option` state holds the field key accumulated so far once a
`'\x7b'` has been opened; `none` as a result embeds the `ValueError` that
`str.format` raises on an unmatched brace. -/
def tokLoop : Option (List Char) → List Char → Option (List Tok)
  | none, [] => some []
  | some _, [] => none
  | none, c :: rest =>
    if c = '{' then tokLoop (some []) rest
    else (tokLoop none rest).map (fun ts => Tok.lit c :: ts)
  | some acc, c :: rest =>
    if c = '}' then (tokLoop none rest).map (fun ts => Tok.field (String.mk acc) :: ts)
    else tokLoop (some (acc ++ [c])) rest

def tokenize (cs : List Char) : Option (List Tok) :=
  tokLoop none cs

/-- `template.format(props, **props)` over the parsed tokens: substitute each
field from `props`, raising `KeyError` (the error value is the key) at the
first field whose key is missing. -/
def renderToks (props : List (String × String)) : List Tok → Except String (List Char)
  | [] => .ok []
  | .lit c :: ts => (renderToks props ts).map (fun r => c :: r)
  | .field k :: ts =>
    match lookupStr props k with
    | none => .error k
    | some v => (renderToks props ts).map (fun r => v.data ++ r)

/-- The keys of the replacement fields of a token list, in template order. -/
def fieldsOf : List Tok → List String :=
  List.filterMap (fun t => match t with | .field k => some k | .lit _ => none)

/-- Modelled from the spec: "returns the template with each \x7bkey\x7d
placeholder replaced by `props[key]`" — the total substitution function the
spec's words describe, to be compared with the source's formatter. -/
def specSubstitute (props : List (String × String)) : List Tok → List Char
  | [] => []
  | .lit c :: ts => c :: specSubstitute props ts
  | .field k :: ts =>
    (match lookupStr props k with | some v => v.data | none => []) ++ specSubstitute props ts

/-- Embeds `CrosConfig.Model.GetTouchFilename`: `props[fname_prop]` (a
`KeyError` here escapes uncaught), strip `'$'`, then format; a `KeyError`
from formatting becomes the descriptive `ValueError` carrying the node path,
the stripped template, the available keys and the missing key. -/
def Model.GetTouchFilename (node_path : String) (props : List (String × String))
    (fname_prop : String) : Except PyError String :=
  match lookupStr props fname_prop with
  | none => .error (.keyError fname_prop)
  | some tv =>
    let template := stripDollar tv
    match tokenize template.data with
    | none => .error .formatValueError
    | some ts =>
      match renderToks props ts with
      | .error k => .error (.valueError node_path template (props.map (fun q => q.1)) k)
      | .ok out => .ok (String.mk out)

/-- The fixed `uri_format` of `GetFirmwareUris`, with `bcs`, `model` and
`fname` interpolated. -/
def firmwareUri (bcs model fname : String) : String :=
  "gs://chromeos-binaries/HOME/bcs-" ++ bcs ++ "/overlay-" ++ bcs ++
    "/chromeos-base/chromeos-firmware-" ++ model ++ "/" ++ fname

/-- Embeds `CrosConfig.Model.GetFirmwareUris`. -/
def Model.GetFirmwareUris (idx : PhandleIndex) (m : Node) : Except PyError (List String) :=
  match m.ChildNodeFromPath idx "/firmware" with
  | .error e => .error e
  | .ok none => .ok []
  | .ok (some firmware) =>
    match firmware.GetMergedProperties idx "shares" with
    | .error e => .error e
    | .ok props =>
      match lookupStr props "bcs-overlay" with
      | none => .ok []
      | some ov =>
        let bcs_overlay := strDrop ov 8
        let file_names := props.filterMap (fun q =>
          if strEndsWith q.1 "-image" && strStartsWith q.2 "bcs://" then some (strDrop q.2 6)
          else none)
        .ok (file_names.map (fun fname => firmwareUri bcs_overlay m.name fname))

/-- The per-device loop of `Model.GetTouchFirmwareFiles`: merged properties
via the `'touch-type'` link, the synthetic upper-cased `MODEL` property, then
the two templated filenames.  Device names are unique (dict keys), so the
`files[device.name] = …` dict build is insertion in iteration order. -/
def Model.touchDeviceFiles (idx : PhandleIndex) (m : Node) :
    List Node → Except PyError (List (String × TouchFile))
  | [] => .ok []
  | d :: ds =>
    match d.GetMergedProperties idx "touch-type" with
    | .error e => .error e
    | .ok props0 =>
      let props := dictSet props0 "MODEL" (strUpper m.name)
      match Model.GetTouchFilename m.path props "firmware-bin" with
      | .error e => .error e
      | .ok fw =>
        match Model.GetTouchFilename m.path props "firmware-symlink" with
        | .error e => .error e
        | .ok sl =>
          match Model.touchDeviceFiles idx m ds with
          | .error e => .error e
          | .ok rest => .ok ((d.name, TouchFile.mk fw sl) :: rest)

/-- Embeds `CrosConfig.Model.GetTouchFirmwareFiles`.  `/touch` resolving to
`None` makes `touch.subnodes` raise `AttributeError`. -/
def Model.GetTouchFirmwareFiles (idx : PhandleIndex) (m : Node) :
    Except PyError (List (String × TouchFile)) :=
  match m.ChildNodeFromPath idx "/touch" with
  | .error e => .error e
  | .ok none => .error .attributeError
  | .ok (some touch) => Model.touchDeviceFiles idx m touch.subnodes

/-- The collection loop of `CrosConfig.GetTouchFirmwareFiles`: each model's
touch files (the dict values), concatenated in model iteration order. -/
def collectTouchFiles (idx : PhandleIndex) : List Node → Except PyError (List TouchFile)
  | [] => .ok []
  | m :: ms =>
    match Model.GetTouchFirmwareFiles idx m with
    | .error e => .error e
    | .ok fs =>
      match collectTouchFiles idx ms with
      | .error e => .error e
      | .ok rest => .ok (fs.map (fun q => q.2) ++ rest)

/-- The key order of `sorted(file_set, key=lambda files: files.firmware)`:
by the `firmware` field alone.  It is total and transitive but not
antisymmetric — two distinct touch files may share a `firmware` value, and
the sort then leaves their relative order to the set's iteration order. -/
def fwLE (a b : TouchFile) : Prop :=
  a.firmware ≤ b.firmware

instance : DecidableRel fwLE := fun a b => by
  unfold fwLE; infer_instance

instance : IsTrans TouchFile fwLE :=
  ⟨fun _ _ _ hab hbc => le_trans hab hbc⟩

instance : IsTotal TouchFile fwLE :=
  ⟨fun a b => le_total a.firmware b.firmware⟩

/-- Embeds `CrosConfig.GetTouchFirmwareFiles`.  The Python builds a `set` of
the models' touch files and hands it to `sorted(..., key=firmware)`, a
stable sort on the set's iteration sequence keyed by `firmware` alone.
CPython's set iteration order is implementation-defined: it depends on the
element hashes and — under hash-slot collisions — on insertion order, so it
is not a function of the set's contents.  The embedding therefore abstracts
the iteration as an explicit `enum` argument; the theorems constrain it to
enumerate exactly the set's contents, each once (`(enum l).Perm l.dedup`),
which is all Python guarantees. -/
def CrosConfig.GetTouchFirmwareFiles (enum : List TouchFile → List TouchFile)
    (cfg : CrosConfig) : Except PyError (List TouchFile) :=
  match collectTouchFiles cfg.phandle_to_node cfg.models with
  | .error e => .error e
  | .ok all => .ok (List.insertionSort fwLE (enum all))

/-- One realizable set-iteration order: the distinct elements in first
insertion order — the order a CPython set exhibits when the colliding
elements' slots are assigned in insertion order.  (`List.dedup` keeps last
occurrences, so deduplicating the reversed list and reversing back keeps
first occurrences in order.) -/
def dedupKeepFirst (l : List TouchFile) : List TouchFile :=
  (l.reverse.dedup).reverse

/-- A touch device producing the firmware name `same_fw.bin` with the
symlink `alpha_link`. -/
def tieDevA : Node :=
  .mk "d0" "" [] [⟨"firmware-bin", "same_fw.bin", 0⟩, ⟨"firmware-symlink", "alpha_link", 0⟩]

def tieTouchA : Node := .mk "touch" "" [tieDevA] []

def tieModelA : Node := .mk "alpha" "/chromeos/models/alpha" [tieTouchA] []

/-- A touch device producing the same firmware name `same_fw.bin` but the
different symlink `beta_link`: a firmware tie between distinct files. -/
def tieDevB : Node :=
  .mk "d0" "" [] [⟨"firmware-bin", "same_fw.bin", 0⟩, ⟨"firmware-symlink", "beta_link", 0⟩]

def tieTouchB : Node := .mk "touch" "" [tieDevB] []

def tieModelB : Node := .mk "beta" "/chromeos/models/beta" [tieTouchB] []

/-! Concrete configurations used to evaluate the code at specific inputs. -/

/-- A linked node that itself carries `reg` and `shares` properties. -/
def c1Linked : Node :=
  .mk "linked" "/linked" []
    [⟨"reg", "linked-reg", 0⟩, ⟨"shares", "linked-shares", 9⟩, ⟨"a", "linked-a", 0⟩]

/-- A node whose `shares` phandle resolves to `c1Linked`; it has its own
`a` and `reg` properties. -/
def c1Main : Node :=
  .mk "main" "/main" []
    [⟨"a", "main-a", 0⟩, ⟨"reg", "main-reg", 0⟩, ⟨"shares", "", 1⟩]

/-- A childless linked node. -/
def c2Linked : Node := .mk "linked" "/linked" [] []

/-- A childless node with a `shares` link to `c2Linked`. -/
def c2Sharer : Node := .mk "sharer" "/sharer" [] [⟨"shares", "", 1⟩]

/-- A childless node with no `shares` property. -/
def c2NoShare : Node := .mk "plain" "/plain" [] []

/-- A linked node holding `own` and `extra` properties. -/
def linkedNodeEx : Node := .mk "shared-cfg" "/shared-cfg" [] [⟨"own", "lv", 0⟩, ⟨"extra", "ev", 0⟩]

/-- A node with a `shares` link to `linkedNodeEx` and its own `own` property. -/
def sharerNodeEx : Node := .mk "main" "/main" [] [⟨"shares", "", 1⟩, ⟨"own", "ov", 0⟩]

def idxEx : PhandleIndex := [(1, linkedNodeEx)]

/-- A node with a single property `bar` whose phandle (7) is unmapped. -/
def phNodeEx : Node := .mk "ph" "/ph" [] [⟨"bar", "", 7⟩]

/-- The `/firmware` node of the `reef` scenario. -/
def reefFirmware : Node :=
  .mk "firmware" "/chromeos/models/reef/firmware" []
    [⟨"bcs-overlay", "overlay-reef-private", 0⟩, ⟨"ec-image", "bcs://reef_ec.bin", 0⟩]

/-- The `reef` model of the firmware-URI scenario. -/
def reefModel : Node := .mk "reef" "/chromeos/models/reef" [reefFirmware] []

/-- A model with no `firmware` child. -/
def noFwModel : Node := .mk "nofw" "/chromeos/models/nofw" [] []

/-- A `/firmware` node without a `bcs-overlay` property. -/
def plainFirmware : Node := .mk "firmware" "" [] [⟨"x-image", "bcs://a.bin", 0⟩]

def plainFwModel : Node := .mk "plainfw" "/chromeos/models/plainfw" [plainFirmware] []

/-- A `/firmware` node whose `bcs-overlay` value does not start with
`overlay-`. -/
def badOverlayFw : Node :=
  .mk "firmware" "" [] [⟨"bcs-overlay", "not-an-overlay", 0⟩, ⟨"main-image", "bcs://m.bin", 0⟩]

def badOverlayModel : Node := .mk "badov" "/chromeos/models/badov" [badOverlayFw] []

/-- A touch device whose templates are constant strings. -/
def touchDevEx : Node :=
  .mk "d0" "" [] [⟨"firmware-bin", "tfw.bin", 0⟩, ⟨"firmware-symlink", "tlink.bin", 0⟩]

def touchNodeEx : Node := .mk "touch" "" [touchDevEx] []

def modelAlpha : Node := .mk "alpha" "/chromeos/models/alpha" [touchNodeEx] []

/-- A second model referencing an identical touch file. -/
def modelBeta : Node := .mk "beta" "/chromeos/models/beta" [touchNodeEx] []

theorem splitSlash_ne_nil : ∀ cs : List Char, splitSlash cs ≠ []
  | [] => by simp [splitSlash]
  | c :: rest => by
    simp only [splitSlash]
    by_cases h : c = '/'
    · simp [h]
    · simp only [h, if_false]
      cases hs : splitSlash rest <;> simp

theorem splitSlash_append : ∀ xs ys : List Char,
    splitSlash (xs ++ '/' :: ys) = splitSlash xs ++ splitSlash ys
  | [], ys => by simp [splitSlash]
  | c :: xs, ys => by
    by_cases h : c = '/'
    · simp [splitSlash, h, splitSlash_append xs ys]
    · have ih := splitSlash_append xs ys
      cases hs : splitSlash xs with
      | nil => exact absurd hs (splitSlash_ne_nil xs)
      | cons s ss =>
        simp only [List.cons_append, splitSlash, h, if_false, List.append_eq]
        rw [ih, hs]
        simp

theorem strData_append (p q : String) : (p ++ q).data = p.data ++ q.data := by
  cases p; cases q; rfl

/-- Splitting a path at an inserted `'/'` splits each half separately: the
empty-segment filter makes doubled or edge slashes immaterial. -/
theorem pathParts_append (p q : String) :
    pathParts (p ++ "/" ++ q) = pathParts p ++ pathParts q := by
  unfold pathParts
  rw [strData_append, strData_append, List.append_assoc]
  have hd : (("/" : String).data ++ q.data) = '/' :: q.data := rfl
  rw [hd, splitSlash_append, List.filter_append, List.map_append]

/-- Resolving a concatenated segment list resolves the first part, then the
second from the node it reached. -/
theorem resolveSegs_append (idx : PhandleIndex) (s t : List String) :
    ∀ n : Node, n.resolveSegs idx (s ++ t) =
      match n.resolveSegs idx s with
      | .ok (some m) => m.resolveSegs idx t
      | .ok none => .ok none
      | .error e => .error e := by
  induction s with
  | nil => intro n; rfl
  | cons part rest ih =>
    intro n
    simp only [List.cons_append, Node.resolveSegs]
    cases hsub : n.findSub part with
    | some sub => simpa using ih sub
    | none =>
      cases hsh : (n.findProp "shares").isSome with
      | false => simp
      | true =>
        simp only [if_true]
        cases hfp : n.FollowPhandle idx "shares" with
        | error e => simp
        | ok o =>
          cases o with
          | none => simp
          | some shared =>
            simp only
            cases hsub2 : shared.findSub part with
            | some sub => simpa using ih sub
            | none => simp

theorem fieldsOf_lit (c : Char) (ts : List Tok) : fieldsOf (.lit c :: ts) = fieldsOf ts := rfl

theorem fieldsOf_field (k : String) (ts : List Tok) :
    fieldsOf (.field k :: ts) = k :: fieldsOf ts := rfl

theorem renderToks_eq (props : List (String × String)) (ts : List Tok) :
    renderToks props ts =
      match (fieldsOf ts).find? (fun k => (lookupStr props k).isNone) with
      | some k => .error k
      | none => .ok (specSubstitute props ts) := by
  induction ts with
  | nil => rfl
  | cons t ts ih =>
    cases t with
    | lit c =>
      have hr : renderToks props (Tok.lit c :: ts) =
          (renderToks props ts).map (fun r => c :: r) := rfl
      rw [hr, ih, fieldsOf_lit]
      cases h : (fieldsOf ts).find? (fun k => (lookupStr props k).isNone) <;> rfl
    | field k =>
      cases hk : lookupStr props k with
      | none =>
        have hr : renderToks props (Tok.field k :: ts) = .error k := by
          simp only [renderToks, hk]
        rw [hr, fieldsOf_field, List.find?_cons_of_pos _ (by simp [hk])]
      | some v =>
        have hr : renderToks props (Tok.field k :: ts) =
            (renderToks props ts).map (fun r => v.data ++ r) := by
          simp only [renderToks, hk]
        rw [hr, ih, fieldsOf_field, List.find?_cons_of_neg _ (by simp [hk])]
        cases h : (fieldsOf ts).find? (fun k => (lookupStr props k).isNone) <;>
          simp [specSubstitute, hk, Except.map]

/-- Any first-insertion-order enumeration has the contents of the set, each
once: it is a permutation of the (last-occurrence) dedup. -/
theorem dedupKeepFirst_perm_dedup (l : List TouchFile) :
    (dedupKeepFirst l).Perm l.dedup :=
  (List.reverse_perm (l.reverse.dedup)).trans (List.Perm.dedup (List.reverse_perm l))

/-- Collecting the models' touch files over a permuted model list succeeds
with a permuted result. -/
theorem collectTouchFiles_perm (idx : PhandleIndex) {l₁ l₂ : List Node}
    (hp : l₁.Perm l₂) :
    ∀ r₁, collectTouchFiles idx l₁ = .ok r₁ →
      ∃ r₂, collectTouchFiles idx l₂ = .ok r₂ ∧ r₁.Perm r₂ := by
  induction hp with
  | nil => exact fun r₁ h => ⟨r₁, h, List.Perm.refl _⟩
  | cons x h ih =>
    rename_i l₁' l₂'
    intro r₁ hr
    simp only [collectTouchFiles] at hr
    cases hx : Model.GetTouchFirmwareFiles idx x with
    | error e => simp only [hx] at hr; exact Except.noConfusion hr
    | ok fs =>
      cases hrest : collectTouchFiles idx l₁' with
      | error e => simp only [hx, hrest] at hr; exact Except.noConfusion hr
      | ok rest₁ =>
        simp only [hx, hrest] at hr
        cases hr
        obtain ⟨rest₂, h2, hperm⟩ := ih rest₁ hrest
        exact ⟨fs.map (fun q => q.2) ++ rest₂, by simp [collectTouchFiles, hx, h2],
          List.Perm.append_left _ hperm⟩
  | swap x y l =>
    intro r₁ hr
    simp only [collectTouchFiles] at hr ⊢
    cases hy : Model.GetTouchFirmwareFiles idx y with
    | error e =>
      cases hx : Model.GetTouchFirmwareFiles idx x with
      | error e₂ => simp only [hx, hy] at hr; exact Except.noConfusion hr
      | ok fx =>
        cases hl : collectTouchFiles idx l with
        | error e₂ => simp only [hx, hy, hl] at hr; exact Except.noConfusion hr
        | ok rest => simp only [hx, hy, hl] at hr; exact Except.noConfusion hr
    | ok fy =>
      cases hx : Model.GetTouchFirmwareFiles idx x with
      | error e =>
        cases hl : collectTouchFiles idx l with
        | error e₂ => simp only [hx, hy, hl] at hr; exact Except.noConfusion hr
        | ok rest => simp only [hx, hy, hl] at hr; exact Except.noConfusion hr
      | ok fx =>
        cases hl : collectTouchFiles idx l with
        | error e => simp only [hx, hy, hl] at hr; exact Except.noConfusion hr
        | ok rest =>
          simp only [hx, hy, hl] at hr ⊢
          cases hr
          refine ⟨fx.map (fun q => q.2) ++ (fy.map (fun q => q.2) ++ rest), rfl, ?_⟩
          rw [← List.append_assoc, ← List.append_assoc]
          exact List.Perm.append_right rest (List.perm_append_comm)
  | trans h₁ h₂ ih₁ ih₂ =>
    intro r₁ hr
    obtain ⟨r₂, hr₂, hp₁⟩ := ih₁ r₁ hr
    obtain ⟨r₃, hr₃, hp₂⟩ := ih₂ r₂ hr₂
    exact ⟨r₃, hr₃, hp₁.trans hp₂⟩

/-! The claims. -/

/-- C1 (the code deviates): `GetMergedProperties` is documented — and claimed
— never to include the key `reg` or the phandle-property name, with self
values taking precedence for keys present on both sides.  The code applies
the `reg`/phandle-prop exclusion only to the node's own properties: the
linked node's `reg` and `shares` properties are merged in, and for the key
`reg` present on both nodes the linked node's value is returned.  (For the
ordinary key `a` present on both, the self value does win.) -/
theorem getMergedProperties_includes_linked_reg :
    c1Main.GetMergedProperties [(1, c1Linked)] "shares" =
      .ok [("a", "main-a"), ("reg", "linked-reg"), ("shares", "linked-shares")] := rfl

/-- C2 (the code deviates): when a node has a `shares` property and the first
path segment is found in neither the node's nor the linked node's children,
`ChildNodeFromPath` raises `UnboundLocalError` (`sub_node` is never
assigned) instead of returning the documented `None`; only a node without a
`shares` property returns the explicit not-found result. -/
theorem childNodeFromPath_unbound_local :
    c2Sharer.ChildNodeFromPath [(1, c2Linked)] "missing" = .error .unboundLocalError ∧
      c2NoShare.ChildNodeFromPath [] "missing" = .ok none :=
  ⟨rfl, rfl⟩

/-- C3: for a node `N` whose `shares` phandle resolves to `L`, when a path
resolves to `N` itself, `ChildPropertyFromPath` returns `N`'s own property
when present, else `L`'s property when present, else the not-found result. -/
theorem childPropertyFromPath_shares_precedence (idx : PhandleIndex) (N L : Node)
    (p k : String)
    (hres : N.ChildNodeFromPath idx p = .ok (some N))
    (hsh : N.FollowPhandle idx "shares" = .ok (some L)) :
    N.ChildPropertyFromPath idx p k =
      .ok (match N.findProp k with
           | some v => some v
           | none => L.findProp k) := by
  have hprop : (N.findProp "shares").isSome = true := by
    unfold Node.FollowPhandle at hsh
    cases h : N.findProp "shares" with
    | none => rw [h] at hsh; exact absurd hsh (by simp)
    | some q => simp
  unfold Node.ChildPropertyFromPath
  rw [hres]
  cases hk : N.findProp k with
  | some v => simp [hk]
  | none => simp [hk, hprop, hsh]

theorem childPropertyFromPath_shares_precedence_witness :
    (sharerNodeEx.ChildNodeFromPath idxEx "" = .ok (some sharerNodeEx)) ∧
      (sharerNodeEx.FollowPhandle idxEx "shares" = .ok (some linkedNodeEx)) ∧
      sharerNodeEx.ChildPropertyFromPath idxEx "" "own" = .ok (some ⟨"own", "ov", 0⟩) ∧
      sharerNodeEx.ChildPropertyFromPath idxEx "" "extra" = .ok (some ⟨"extra", "ev", 0⟩) ∧
      sharerNodeEx.ChildPropertyFromPath idxEx "" "nope" = .ok none := by
  refine ⟨rfl, rfl, ?_, ?_, ?_⟩
  · exact (childPropertyFromPath_shares_precedence idxEx sharerNodeEx linkedNodeEx
      "" "own" rfl rfl).trans rfl
  · exact (childPropertyFromPath_shares_precedence idxEx sharerNodeEx linkedNodeEx
      "" "extra" rfl rfl).trans rfl
  · exact (childPropertyFromPath_shares_precedence idxEx sharerNodeEx linkedNodeEx
      "" "nope" rfl rfl).trans rfl

/-- C4 (counterexample): with two models contributing distinct touch files
that share a `firmware` name, and the set enumerated in first-insertion
order — a realizable CPython iteration order, reached under hash-slot
collisions — swapping the two models swaps the tie pair in the output:
`sorted(..., key=firmware)` cannot disambiguate the tie, so the sequence is
not deterministic regardless of model iteration order. -/
theorem config_touchFiles_tie_order_counterexample :
    [tieModelA, tieModelB].Perm [tieModelB, tieModelA] ∧
      CrosConfig.GetTouchFirmwareFiles dedupKeepFirst ⟨[], [tieModelA, tieModelB]⟩ =
        .ok [⟨"same_fw.bin", "alpha_link"⟩, ⟨"same_fw.bin", "beta_link"⟩] ∧
      CrosConfig.GetTouchFirmwareFiles dedupKeepFirst ⟨[], [tieModelB, tieModelA]⟩ =
        .ok [⟨"same_fw.bin", "beta_link"⟩, ⟨"same_fw.bin", "alpha_link"⟩] ∧
      ([(⟨"same_fw.bin", "alpha_link"⟩ : TouchFile), ⟨"same_fw.bin", "beta_link"⟩] ≠
        [⟨"same_fw.bin", "beta_link"⟩, ⟨"same_fw.bin", "alpha_link"⟩]) := by
  have hab : fwLE ⟨"same_fw.bin", "alpha_link"⟩ ⟨"same_fw.bin", "beta_link"⟩ := by
    unfold fwLE; exact le_refl _
  have hba : fwLE ⟨"same_fw.bin", "beta_link"⟩ ⟨"same_fw.bin", "alpha_link"⟩ := by
    unfold fwLE; exact le_refl _
  refine ⟨List.Perm.swap tieModelB tieModelA [], ?_, ?_, by decide⟩
  · have hc : collectTouchFiles [] [tieModelA, tieModelB] =
        .ok [⟨"same_fw.bin", "alpha_link"⟩, ⟨"same_fw.bin", "beta_link"⟩] := by decide
    have hd : dedupKeepFirst [⟨"same_fw.bin", "alpha_link"⟩, ⟨"same_fw.bin", "beta_link"⟩] =
        [⟨"same_fw.bin", "alpha_link"⟩, ⟨"same_fw.bin", "beta_link"⟩] := by decide
    simp only [CrosConfig.GetTouchFirmwareFiles, hc, hd, List.insertionSort, List.orderedInsert]
    rw [if_pos hab]
  · have hc : collectTouchFiles [] [tieModelB, tieModelA] =
        .ok [⟨"same_fw.bin", "beta_link"⟩, ⟨"same_fw.bin", "alpha_link"⟩] := by decide
    have hd : dedupKeepFirst [⟨"same_fw.bin", "beta_link"⟩, ⟨"same_fw.bin", "alpha_link"⟩] =
        [⟨"same_fw.bin", "beta_link"⟩, ⟨"same_fw.bin", "alpha_link"⟩] := by decide
    simp only [CrosConfig.GetTouchFirmwareFiles, hc, hd, List.insertionSort, List.orderedInsert]
    rw [if_pos hba]

/-- C4 (amended): for every set-enumeration order (anything enumerating the
set's contents once each), `Config.GetTouchFirmwareFiles` output is sorted
ascending by `firmware` and contains no two elements with equal
`(firmware, symlink)` pairs, even when several models produce an identical
touch file; and whenever no two distinct elements of the output share a
`firmware` value, the output is moreover the same for any permutation of
the model iteration order and any enumeration orders.  (With a firmware
tie between distinct files the tie order follows the set's
implementation-defined iteration order, as the counterexample shows.) -/
theorem config_touchFiles_sorted_nodup_tiefree_deterministic
    (enum₁ enum₂ : List TouchFile → List TouchFile)
    (henum₁ : ∀ l, (enum₁ l).Perm l.dedup)
    (henum₂ : ∀ l, (enum₂ l).Perm l.dedup)
    (cfg₁ cfg₂ : CrosConfig) (out₁ out₂ : List TouchFile)
    (hidx : cfg₁.phandle_to_node = cfg₂.phandle_to_node)
    (hmod : cfg₁.models.Perm cfg₂.models)
    (h₁ : CrosConfig.GetTouchFirmwareFiles enum₁ cfg₁ = .ok out₁)
    (h₂ : CrosConfig.GetTouchFirmwareFiles enum₂ cfg₂ = .ok out₂) :
    out₁.Pairwise (fun a b => a.firmware ≤ b.firmware) ∧ out₁.Nodup ∧
      ((∀ a ∈ out₁, ∀ b ∈ out₁, a.firmware = b.firmware → a = b) → out₁ = out₂) := by
  unfold CrosConfig.GetTouchFirmwareFiles at h₁ h₂
  cases c₁ : collectTouchFiles cfg₁.phandle_to_node cfg₁.models with
  | error e => rw [c₁] at h₁; exact Except.noConfusion h₁
  | ok all₁ =>
    rw [c₁] at h₁
    cases c₂ : collectTouchFiles cfg₂.phandle_to_node cfg₂.models with
    | error e => rw [c₂] at h₂; exact Except.noConfusion h₂
    | ok all₂ =>
      rw [c₂] at h₂
      injection h₁ with h₁
      injection h₂ with h₂
      subst h₁
      subst h₂
      rw [hidx] at c₁
      obtain ⟨r₂, hr₂, hperm⟩ := collectTouchFiles_perm cfg₂.phandle_to_node hmod all₁ c₁
      have heq : (Except.ok r₂ : Except PyError (List TouchFile)) = Except.ok all₂ :=
        hr₂.symm.trans c₂
      injection heq with heq
      subst heq
      have hs₁ : List.Sorted fwLE (List.insertionSort fwLE (enum₁ all₁)) :=
        List.sorted_insertionSort fwLE (enum₁ all₁)
      have hs₂ : List.Sorted fwLE (List.insertionSort fwLE (enum₂ r₂)) :=
        List.sorted_insertionSort fwLE (enum₂ r₂)
      have hn₁ : (List.insertionSort fwLE (enum₁ all₁)).Nodup :=
        (((List.perm_insertionSort fwLE (enum₁ all₁)).trans (henum₁ all₁)).nodup_iff).mpr
          (List.nodup_dedup all₁)
      have houtperm :
          (List.insertionSort fwLE (enum₁ all₁)).Perm (List.insertionSort fwLE (enum₂ r₂)) :=
        ((((List.perm_insertionSort fwLE (enum₁ all₁)).trans (henum₁ all₁)).trans
            hperm.dedup).trans (henum₂ r₂).symm).trans
          (List.perm_insertionSort fwLE (enum₂ r₂)).symm
      refine ⟨hs₁, hn₁, ?_⟩
      intro hinj
      have hn₂ : (List.insertionSort fwLE (enum₂ r₂)).Nodup := houtperm.nodup_iff.mp hn₁
      have hlt₁ : (List.insertionSort fwLE (enum₁ all₁)).Pairwise
          (fun a b => a.firmware < b.firmware) := by
        refine (hs₁.and hn₁).imp_of_mem ?_
        intro a b ha hb hab
        rcases lt_or_eq_of_le hab.1 with h | h
        · exact h
        · exact absurd (hinj a ha b hb h) hab.2
      have hlt₂ : (List.insertionSort fwLE (enum₂ r₂)).Pairwise
          (fun a b => a.firmware < b.firmware) := by
        refine (hs₂.and hn₂).imp_of_mem ?_
        intro a b ha hb hab
        rcases lt_or_eq_of_le hab.1 with h | h
        · exact h
        · exact absurd (hinj a (houtperm.mem_iff.mpr ha) b (houtperm.mem_iff.mpr hb) h) hab.2
      haveI : IsAntisymm TouchFile (fun a b => a.firmware < b.firmware) :=
        ⟨fun _ _ h h' => absurd (lt_trans h h') (lt_irrefl _)⟩
      exact List.eq_of_perm_of_sorted houtperm hlt₁ hlt₂

theorem config_touchFiles_sorted_nodup_tiefree_deterministic_witness :
    CrosConfig.GetTouchFirmwareFiles dedupKeepFirst ⟨[], [modelAlpha, modelBeta]⟩ =
        .ok [⟨"tfw.bin", "tlink.bin"⟩] ∧
      CrosConfig.GetTouchFirmwareFiles dedupKeepFirst ⟨[], [modelBeta, modelAlpha]⟩ =
        .ok [⟨"tfw.bin", "tlink.bin"⟩] ∧
      ([(⟨"tfw.bin", "tlink.bin"⟩ : TouchFile)].Pairwise
          (fun a b => a.firmware ≤ b.firmware) ∧
        [(⟨"tfw.bin", "tlink.bin"⟩ : TouchFile)].Nodup ∧
        [(⟨"tfw.bin", "tlink.bin"⟩ : TouchFile)] = [⟨"tfw.bin", "tlink.bin"⟩]) := by
  refine ⟨by decide, by decide, ?_⟩
  obtain ⟨hs, hn, hd⟩ := config_touchFiles_sorted_nodup_tiefree_deterministic
    dedupKeepFirst dedupKeepFirst dedupKeepFirst_perm_dedup dedupKeepFirst_perm_dedup
    ⟨[], [modelAlpha, modelBeta]⟩ ⟨[], [modelBeta, modelAlpha]⟩
    [⟨"tfw.bin", "tlink.bin"⟩] [⟨"tfw.bin", "tlink.bin"⟩]
    rfl (List.Perm.swap modelBeta modelAlpha []) (by decide) (by decide)
  exact ⟨hs, hn, hd (by decide)⟩

/-- C5: path traversal composes segment-wise: resolving `p ++ "/" ++ q`
equals resolving `p` and then resolving `q` from the node it reached
(not-found and errors short-circuit). -/
theorem childNodeFromPath_compose (idx : PhandleIndex) (n : Node) (p q : String) :
    n.ChildNodeFromPath idx (p ++ "/" ++ q) =
      match n.ChildNodeFromPath idx p with
      | .ok (some m) => m.ChildNodeFromPath idx q
      | .ok none => .ok none
      | .error e => .error e := by
  unfold Node.ChildNodeFromPath
  rw [pathParts_append]
  exact resolveSegs_append idx (pathParts p) (pathParts q) n

/-- C6: when `/firmware` resolves and its merged properties contain
`bcs-overlay`, every merged property whose name ends in `-image` and whose
value starts with `bcs://` contributes, in merged-property insertion order,
a URI of the fixed `gs://chromeos-binaries/...` form built from the
stripped overlay, the model name and the stripped filename. -/
theorem getFirmwareUris_uri_form (idx : PhandleIndex) (m fw : Node)
    (props : List (String × String)) (ov : String)
    (hfw : m.ChildNodeFromPath idx "/firmware" = .ok (some fw))
    (hmp : fw.GetMergedProperties idx "shares" = .ok props)
    (hov : lookupStr props "bcs-overlay" = some ov) :
    Model.GetFirmwareUris idx m =
      .ok ((props.filterMap (fun q =>
          if strEndsWith q.1 "-image" && strStartsWith q.2 "bcs://" then some (strDrop q.2 6)
          else none)).map (fun fname => firmwareUri (strDrop ov 8) m.name fname)) := by
  simp only [Model.GetFirmwareUris, hfw, hmp, hov]

theorem getFirmwareUris_uri_form_witness :
    (reefModel.ChildNodeFromPath [] "/firmware" = .ok (some reefFirmware)) ∧
      (reefFirmware.GetMergedProperties [] "shares" =
        .ok [("bcs-overlay", "overlay-reef-private"), ("ec-image", "bcs://reef_ec.bin")]) ∧
      Model.GetFirmwareUris [] reefModel =
        .ok ["gs://chromeos-binaries/HOME/bcs-reef-private/overlay-reef-private/chromeos-base/chromeos-firmware-reef/reef_ec.bin"] := by
  refine ⟨rfl, rfl, ?_⟩
  exact (getFirmwareUris_uri_form [] reefModel reefFirmware
    [("bcs-overlay", "overlay-reef-private"), ("ec-image", "bcs://reef_ec.bin")]
    "overlay-reef-private" rfl rfl rfl).trans rfl

/-- C7: `GetFirmwareUris` returns an empty sequence, raising nothing, when
`/firmware` resolves to the not-found result under the model, and likewise
when the resolved `/firmware` node's merged properties lack `bcs-overlay`. -/
theorem getFirmwareUris_empty_cases (idx : PhandleIndex) (m : Node) :
    (m.ChildNodeFromPath idx "/firmware" = .ok none →
      Model.GetFirmwareUris idx m = .ok [])
    ∧ (∀ (fw : Node) (props : List (String × String)),
        m.ChildNodeFromPath idx "/firmware" = .ok (some fw) →
        fw.GetMergedProperties idx "shares" = .ok props →
        lookupStr props "bcs-overlay" = none →
        Model.GetFirmwareUris idx m = .ok []) := by
  constructor
  · intro h
    simp only [Model.GetFirmwareUris, h]
  · intro fw props h1 h2 h3
    simp only [Model.GetFirmwareUris, h1, h2, h3]

theorem getFirmwareUris_empty_cases_witness :
    (noFwModel.ChildNodeFromPath [] "/firmware" = .ok none) ∧
      Model.GetFirmwareUris [] noFwModel = .ok [] ∧
      Model.GetFirmwareUris [] plainFwModel = .ok [] := by
  refine ⟨rfl, ?_, ?_⟩
  · exact (getFirmwareUris_empty_cases [] noFwModel).1 rfl
  · exact (getFirmwareUris_empty_cases [] plainFwModel).2 plainFirmware
      [("x-image", "bcs://a.bin")] rfl rfl rfl

/-- C8: with the template property present and its `$`-stripped value
well-formed, `GetTouchFilename` substitutes every `\x7bkey\x7d` field from
`props` when all referenced keys are present, and otherwise fails with the
`ValueError` carrying the node path, the template, the available property
names and the first referenced key missing from `props`. -/
theorem getTouchFilename_missing_key_and_render (node_path : String)
    (props : List (String × String)) (fname_prop tv : String) (ts : List Tok)
    (hfp : lookupStr props fname_prop = some tv)
    (htok : tokenize (stripDollar tv).data = some ts) :
    ((fieldsOf ts).find? (fun k => (lookupStr props k).isNone) = none →
      Model.GetTouchFilename node_path props fname_prop =
        .ok (String.mk (specSubstitute props ts)))
    ∧ (∀ k, (fieldsOf ts).find? (fun k => (lookupStr props k).isNone) = some k →
        k ∈ fieldsOf ts ∧ lookupStr props k = none ∧
        Model.GetTouchFilename node_path props fname_prop =
          .error (.valueError node_path (stripDollar tv)
            (props.map (fun q => q.1)) k)) := by
  constructor
  · intro h
    simp only [Model.GetTouchFilename, hfp, htok, renderToks_eq, h]
  · intro k hk
    refine ⟨List.mem_of_find?_eq_some hk, ?_, ?_⟩
    · have hp := List.find?_some hk
      simpa using hp
    · simp only [Model.GetTouchFilename, hfp, htok, renderToks_eq, hk]

theorem getTouchFilename_missing_key_and_render_witness :
    Model.GetTouchFilename "/chromeos/models/reef"
        [("firmware-bin", "a_${missing-key}.bin"), ("MODEL", "REEF")] "firmware-bin" =
      .error (.valueError "/chromeos/models/reef" "a_{missing-key}.bin"
        ["firmware-bin", "MODEL"] "missing-key") ∧
    Model.GetTouchFilename "/chromeos/models/reef"
        [("firmware-bin", "${MODEL}_fw.bin"), ("MODEL", "REEF")] "firmware-bin" =
      .ok "REEF_fw.bin" := by
  constructor
  · exact ((getTouchFilename_missing_key_and_render "/chromeos/models/reef"
      [("firmware-bin", "a_${missing-key}.bin"), ("MODEL", "REEF")] "firmware-bin"
      "a_${missing-key}.bin"
      [.lit 'a', .lit '_', .field "missing-key", .lit '.', .lit 'b', .lit 'i', .lit 'n']
      rfl rfl).2 "missing-key" rfl).2.2
  · exact ((getTouchFilename_missing_key_and_render "/chromeos/models/reef"
      [("firmware-bin", "${MODEL}_fw.bin"), ("MODEL", "REEF")] "firmware-bin"
      "${MODEL}_fw.bin"
      [.field "MODEL", .lit '_', .lit 'f', .lit 'w', .lit '.', .lit 'b', .lit 'i', .lit 'n']
      rfl rfl).1 rfl).trans rfl

/-- C9: `FollowPhandle` returns the not-found result when the named property
is missing, and when the property exists but its phandle has no entry in
the global index the call fails with the propagating `KeyError`. -/
theorem followPhandle_missing_and_fatal (idx : PhandleIndex) (n : Node) (s : String) :
    (n.findProp s = none → n.FollowPhandle idx s = .ok none)
    ∧ (∀ p : CProperty, n.findProp s = some p → lookupPhandle idx p.phandle = none →
        n.FollowPhandle idx s = .error (.keyError s)) := by
  constructor
  · intro h
    simp only [Node.FollowPhandle, h]
  · intro p hp hl
    simp only [Node.FollowPhandle, hp, hl]

theorem followPhandle_missing_and_fatal_witness :
    phNodeEx.FollowPhandle [] "foo" = .ok none ∧
      phNodeEx.FollowPhandle [] "bar" = .error (.keyError "bar") := by
  constructor
  · exact (followPhandle_missing_and_fatal [] phNodeEx "foo").1 rfl
  · exact (followPhandle_missing_and_fatal [] phNodeEx "bar").2 ⟨"bar", "", 7⟩ rfl rfl

/-- C10: `GetFirmwareUris` strips the first 8 characters from the
`bcs-overlay` value unconditionally: even when the value does not start
with the literal `overlay-`, no error is raised and the URIs are built from
the silently truncated identifier. -/
theorem getFirmwareUris_overlay_truncated_unchecked (idx : PhandleIndex) (m fw : Node)
    (props : List (String × String)) (ov : String)
    (hfw : m.ChildNodeFromPath idx "/firmware" = .ok (some fw))
    (hmp : fw.GetMergedProperties idx "shares" = .ok props)
    (hov : lookupStr props "bcs-overlay" = some ov)
    (hnc : strStartsWith ov "overlay-" = false) :
    Model.GetFirmwareUris idx m =
      .ok ((props.filterMap (fun q =>
          if strEndsWith q.1 "-image" && strStartsWith q.2 "bcs://" then some (strDrop q.2 6)
          else none)).map (fun fname => firmwareUri (strDrop ov 8) m.name fname)) := by
  simp only [Model.GetFirmwareUris, hfw, hmp, hov]

theorem getFirmwareUris_overlay_truncated_unchecked_witness :
    (strStartsWith "not-an-overlay" "overlay-" = false) ∧
      Model.GetFirmwareUris [] badOverlayModel =
        .ok ["gs://chromeos-binaries/HOME/bcs-verlay/overlay-verlay/chromeos-base/chromeos-firmware-badov/m.bin"] := by
  refine ⟨rfl, ?_⟩
  exact (getFirmwareUris_overlay_truncated_unchecked [] badOverlayModel badOverlayFw
    [("bcs-overlay", "not-an-overlay"), ("main-image", "bcs://m.bin")]
    "not-an-overlay" rfl rfl rfl rfl).trans rfl
